import Mathlib

/-!
Verification of the equality engine, XML parser registry and datetime helper
of libtaxii/common.py (class TAXIIBase, functions get_xml_parser,
set_xml_parser, parse_datetime_string).

The Python runtime values that can appear as instance attributes of a
TAXII object are shallowly embedded as the inductive type Value below.
Fallible operations (attribute lookups that can raise KeyError or
AttributeError, unhashable set members raising TypeError, the interpreter
recursion limit) are modelled with Except PyErr.
-/

namespace LibTaxii

/-- Python errors that TAXIIBase.__eq__ can propagate, plus two artifacts of
the model: recursionLimit stands for the Python interpreter recursion limit
(__eq__ recurses without bound on nested structures), and unmodelled marks
the few cross-shape comparisons whose CPython outcome depends on data the
embedding does not carry (length of a foreign etree element, identity-based
hashes). -/
inductive PyErr where
| keyError
| attributeError
| typeError
| notTAXIIBase
| recursionLimit
| unmodelled
deriving DecidableEq, Repr

/-- A Python value reachable from the attributes of a TAXII object:
None, an integer scalar, a TAXIIBase instance (concrete class name,
its sort_key property, and its underscore-prefixed instance attributes in
dir() order), a list, a dict with scalar values, or a foreign
etree element represented by its serialized text (etree.tostring).
Scalars are modelled as integers; str/float scalars behave the same way in
every comparison path the claims touch (direct ==, set membership). -/
inductive Value where
| none
| scalar (n : Int)
| obj (cls : String) (key : Int) (fields : List (String × Value))
| vlist (items : List Value)
| vdict (entries : List (String × Int))
| elem (rendered : String)

instance {ε α : Type} [DecidableEq ε] [DecidableEq α] : DecidableEq (Except ε α) := fun a b =>
  match a, b with
  | .ok x, .ok y => if h : x = y then isTrue (by rw [h]) else isFalse (by intro hc; cases hc; exact h rfl)
  | .error e, .error e2 => if h : e = e2 then isTrue (by rw [h]) else isFalse (by intro hc; cases hc; exact h rfl)
  | .ok _, .error _ => isFalse (by intro hc; cases hc)
  | .error _, .ok _ => isFalse (by intro hc; cases hc)

/-- self.__class__.__name__ for each shape of value. -/
def className : Value → String
| .none => "NoneType"
| .scalar _ => "int"
| .obj c _ _ => c
| .vlist _ => "list"
| .vdict _ => "dict"
| .elem _ => "_Element"

/-- isinstance(v, TAXIIBase). -/
def isTAXIIBase : Value → Bool
| .obj _ _ _ => true
| _ => false

/-- Values hashed by value in CPython (int, None), so that set membership
agrees with ==. TAXIIBase instances and etree elements are hashable but
hash by object identity, which the embedding does not model. -/
def hashableScalar : Value → Bool
| .scalar _ => true
| .none => true
| _ => false

/-- Values that raise TypeError when put into a set (unhashable). -/
def isUnhashable : Value → Bool
| .vlist _ => true
| .vdict _ => true
| _ => false

/-- Python == on the scalar shapes reached by the final else branch of the
member comparison (self_value is None or an int there): None == None is
True, equal ints are equal, every cross-shape comparison is False.
(A TAXIIBase subclass literally named int compared against an int via the
reflected __eq__ is also False unless it has no attributes; that corner is
not reachable from any theorem below.) -/
def pyPlainEq : Value → Value → Bool
| .none, .none => true
| .scalar a, .scalar b => decide (a = b)
| _, _ => false

/-- other.__dict__[member]: first binding of the member name, if any. -/
def lookupField (k : String) : List (String × Value) → Option Value
| [] => Option.none
| (k2, v) :: rest => if k2 = k then some v else lookupField k rest

/-- other_value[k] for a dict field. -/
def lookupDict (k : String) : List (String × Int) → Option Int
| [] => Option.none
| (k2, v) :: rest => if k2 = k then some v else lookupDict k rest

/-- The loop for k, v in self_value.iteritems(): if other_value[k] != v: ...
(common.py lines 204-208). Looking up a key absent from other_value raises
KeyError; the comparison result itself is only used to assign eq = False,
an assignment that is dead because line 209 overwrites eq with True, so the
loop's only observable effect is the possible KeyError. -/
def dictLoopPy (d2 : List (String × Int)) : List (String × Int) → Except PyErr Unit
| [] => .ok ()
| (k, _) :: rest =>
  match lookupDict k d2 with
  | Option.none => .error .keyError
  | some _ => dictLoopPy d2 rest

/-- The dict branch of __eq__ (common.py lines 198-209), faithfully including
its defect: the key-set difference check on line 200 and the value
comparisons on lines 204-208 only ever assign eq = False without exiting,
and line 209 then unconditionally assigns eq = True. Hence the branch
returns True whenever every key of self_value is present in other_value
(regardless of key sets or values), and raises KeyError otherwise. -/
def dictEqPy (d1 d2 : List (String × Int)) : Except PyErr Bool :=
  match dictLoopPy d2 d1 with
  | .error e => .error e
  | .ok _ => .ok true

/-- attrgetter('sort_key') applied to one element: AttributeError unless the
element is a TAXIIBase instance. -/
def getKeyV : Value → Except PyErr Int
| .obj _ k _ => .ok k
| _ => .error .attributeError

/-- The key extraction pass of sorted(lst, key=attrgetter('sort_key')):
CPython decorates every element with its key before sorting, raising
AttributeError at the first element without a sort_key. -/
def keyedList : List Value → Except PyErr (List (Int × Value))
| [] => .ok []
| v :: rest =>
  match getKeyV v with
  | .error e => .error e
  | .ok k =>
    match keyedList rest with
    | .error e => .error e
    | .ok ks => .ok ((k, v) :: ks)

/-- Insert a keyed element into an already key-sorted list, before the first
element whose key is not smaller; combined with isortK this is a stable
sort, matching the stability guarantee of Python sorted. -/
def insertK (p : Int × Value) : List (Int × Value) → List (Int × Value)
| [] => [p]
| q :: qs => if q.1 < p.1 then q :: insertK p qs else p :: q :: qs

/-- Stable insertion sort on keyed elements, ascending by key. -/
def isortK : List (Int × Value) → List (Int × Value)
| [] => []
| p :: ps => insertK p (isortK ps)

/-- sorted(lst, key=attrgetter('sort_key')) (common.py lines 190-191). -/
def sortObjsByKey (l : List Value) : Except PyErr (List Value) :=
  match keyedList l with
  | .error e => .error e
  | .ok ks => .ok ((isortK ks).map Prod.snd)

/-- The sort_key of a TAXIIBase value (0 on other shapes, which never carry
a key). -/
def objKey : Value → Int
| .obj _ k _ => k
| _ => 0

/-- set(self_value) == set(other_value) (common.py line 197).
Unhashable elements (lists, dicts) raise TypeError exactly as in CPython.
For value-hashed elements (ints, None) set equality is mutual membership
under ==. TAXIIBase instances and etree elements hash by object identity
in CPython, which a structural embedding cannot represent, so those are
mapped to the unmodelled error. -/
def setEqPy (l1 l2 : List Value) : Except PyErr Bool :=
  if (l1 ++ l2).any isUnhashable then .error .typeError
  else if (l1 ++ l2).all hashableScalar then
    .ok ((l1.all fun x => l2.any (pyPlainEq x)) && (l2.all fun x => l1.any (pyPlainEq x)))
  else .error .unmodelled

/-- The loop for self_item, other_item in zip(...) on lines 192-194 of
common.py: each aligned pair is compared with a full recursive __eq__ call
(f), and eq is reassigned on every iteration, so the accumulator is simply
overwritten; when the loop ends, eq holds the result of the last pair. -/
def eqPairsRun (f : Value → Value → Except PyErr Bool) : List (Value × Value) → Bool → Except PyErr Bool
| [], acc => .ok acc
| (a, b) :: rest, _acc =>
  match f a b with
  | .error e => .error e
  | .ok e => eqPairsRun f rest e

/-- The list branch of __eq__ (common.py lines 173-197): unequal lengths
give False, two empty lists give True, and otherwise the first element of
self_value alone decides the strategy: a TAXIIBase head selects the
sort-by-sort_key aligned pairwise comparison, any other head selects the
set comparison. -/
def eqListPy (f : Value → Value → Except PyErr Bool) (l1 l2 : List Value) : Except PyErr Bool :=
  if l1.length ≠ l2.length then .ok false
  else match l1 with
  | [] => .ok true
  | h :: _ =>
    if isTAXIIBase h then
      match sortObjsByKey l1, sortObjsByKey l2 with
      | .ok s1, .ok s2 => eqPairsRun f (s1.zip s2) true
      | .error e, _ => .error e
      | .ok _, .error e => .error e
    else setEqPy l1 l2

/-- The per-member dispatch of __eq__ on the runtime shape of self_value
(common.py lines 170-215), parameterized by the recursive __eq__ call f.
A TAXIIBase self_value recurses; a list self_value requires a list
other_value (len() of an int, None or TAXIIBase other raises TypeError; a
dict or element other_value would be measured by its own len, which the
embedding does not carry, hence unmodelled); a dict self_value calls
other_value.keys(), raising AttributeError on every non-dict; an element
self_value serializes both sides, etree.tostring raising TypeError on
non-elements; None and int fall through to direct ==. -/
def eqValueRun (f : Value → Value → Except PyErr Bool) : Value → Value → Except PyErr Bool
| .obj c k fs, ov => f (.obj c k fs) ov
| .vlist l1, .vlist l2 => eqListPy f l1 l2
| .vlist _, .vdict _ => .error .unmodelled
| .vlist _, .elem _ => .error .unmodelled
| .vlist _, _ => .error .typeError
| .vdict d1, .vdict d2 => dictEqPy d1 d2
| .vdict _, _ => .error .attributeError
| .elem s, .elem t => .ok (decide (s = t))
| .elem _, _ => .error .typeError
| .none, ov => .ok (pyPlainEq .none ov)
| .scalar a, ov => .ok (pyPlainEq (.scalar a) ov)

/-- The member loop of __eq__ (common.py lines 160-221): iterate the
underscore-prefixed instance attributes of self (in dir() order), look each
one up in other.__dict__ (KeyError if absent, AttributeError if other has
no __dict__ at all, e.g. a raw int whose type name collides with the
class name), compare the two values, and return False at the first unequal
member. An empty member list never touches other and returns True. -/
def eqMembersRun (f : Value → Value → Except PyErr Bool) (other : Value) : List (String × Value) → Except PyErr Bool
| [] => .ok true
| (nm, sv) :: rest =>
  match other with
  | .obj _ _ os =>
    match lookupField nm os with
    | Option.none => .error .keyError
    | some ov =>
      match eqValueRun f sv ov with
      | .error e => .error e
      | .ok e => if e then eqMembersRun f other rest else .ok false
  | _ => .error .attributeError

/-- TAXIIBase.__eq__ (common.py lines 131-223), with a fuel parameter
standing for the Python recursion limit: each nested __eq__ call consumes
one unit. If other is None the result is False (lines 148-151); if the
concrete class names differ the result is False (lines 153-156); otherwise
the members of self are compared one by one. The debug printing of the
original, which never influences the returned value, is not modelled. -/
def eqTAXIIF : Nat → Value → Value → Except PyErr Bool
| 0, _, _ => .error .recursionLimit
| Nat.succ n, self, other =>
  match self with
  | .obj c _ fs =>
    match other with
    | .none => .ok false
    | o =>
      if className o = c then eqMembersRun (fun a b => eqTAXIIF n a b) o fs
      else .ok false
  | _ => .error .notTAXIIBase

/-- The comparison applied to one member value inside an __eq__ invocation
whose nested calls run with fuel n. -/
def fieldEqF (n : Nat) : Value → Value → Except PyErr Bool :=
  eqValueRun (fun a b => eqTAXIIF n a b)

/-- The two knobs passed to etree.XMLParser in get_xml_parser
(common.py line 24). -/
structure XMLParserConfig where
  no_network : Bool
  huge_tree : Bool
deriving DecidableEq

/-- etree.XMLParser(no_network=True, huge_tree=True), the hardened default
built lazily by get_xml_parser. -/
def defaultXMLParserConfig : XMLParserConfig := ⟨true, true⟩

/-- get_xml_parser (common.py lines 15-25). The module-global _XML_PARSER is
threaded explicitly as an Option XMLParserConfig state; the function returns
the parser in use together with the updated global. -/
def get_xml_parser_fn : Option XMLParserConfig → XMLParserConfig × Option XMLParserConfig
| Option.none => (defaultXMLParserConfig, some defaultXMLParserConfig)
| some p => (p, some p)

/-- set_xml_parser (common.py lines 28-35): overwrite the global slot
unconditionally; the argument defaults to None in Python, which clears the
slot back to uninitialized. -/
def set_xml_parser_fn (p : Option XMLParserConfig) (_st : Option XMLParserConfig) : Option XMLParserConfig := p

/-- parse_datetime_string (common.py lines 38-45), parameterized by the
external dateutil.parser.parse routine duParse, which may fail with a
ParseError of type E. A Python-falsy argument (None or the empty string)
short-circuits to None; everything else is handed to duParse and its result
or failure is returned unchanged. -/
def parse_datetime_string {E DT : Type} (duParse : String → Except E DT) : Option String → Except E (Option DT)
| Option.none => .ok Option.none
| some s =>
  if s = "" then .ok Option.none
  else
    match duParse s with
    | .ok t => .ok (some t)
    | .error e => .error e

/-- Well-formed values of object-nesting depth at most d. This captures the
shape discipline every real TAXII message object satisfies: Python dicts
and instance __dict__ tables cannot repeat a key (modelled as Nodup key
lists), a list field holds either TAXIIBase objects throughout (as the
sort_key alignment requires) or plain value-hashed scalars throughout, and
d bounds how deeply TAXIIBase objects nest, which is the number of
recursive __eq__ calls (fuel) a comparison needs. -/
inductive WFD : Value → Nat → Prop where
| wnone (d : Nat) : WFD .none d
| wscalar (a : Int) (d : Nat) : WFD (.scalar a) d
| welem (s : String) (d : Nat) : WFD (.elem s) d
| wdict (entries : List (String × Int)) (d : Nat) :
    (entries.map Prod.fst).Nodup → WFD (.vdict entries) d
| wobjlist (l : List Value) (d : Nat) :
    (∀ x ∈ l, isTAXIIBase x = true) → (∀ x ∈ l, WFD x d) → WFD (.vlist l) d
| wscalarlist (l : List Value) (d : Nat) :
    (∀ x ∈ l, hashableScalar x = true) → WFD (.vlist l) d
| wobj (c : String) (k : Int) (fs : List (String × Value)) (d : Nat) :
    (fs.map Prod.fst).Nodup → (∀ p ∈ fs, WFD p.2 d) → WFD (.obj c k fs) (d + 1)

/-!  Claim theorems.  -/

/-- C1 (code bug evaluation): with self._d = empty dict and other._d
containing the extra key a, the key sets differ but __eq__ returns True,
because the dict branch never exits on the key-set check and line 209
overwrites eq with True; with the operands swapped the engine raises
KeyError at other_value[k] instead of returning False. The spec and claim
say a key-set mismatch must yield False. -/
theorem claim_c1_mapping_keyset_bug :
    eqTAXIIF 3 (.obj "T" 0 [("_d", .vdict [])]) (.obj "T" 0 [("_d", .vdict [("a", 1)])]) = .ok true ∧
    eqTAXIIF 3 (.obj "T" 0 [("_d", .vdict [("a", 1)])]) (.obj "T" 0 [("_d", .vdict [])]) = .error .keyError := by
  constructor
  · rfl
  · rfl

/-- C2 (counterexample): comparing an instance against an object of the same
concrete type that lacks a compared field does not yield False; the lookup
other.__dict__[member] raises KeyError, contradicting the claim that the
engine raises no error of its own. -/
theorem claim_c2_counterexample :
    eqTAXIIF 1 (.obj "T" 0 [("_x", .scalar 1)]) (.obj "T" 0 []) = .error .keyError := by rfl

/-- C2 (amended): the engine returns False without raising for an absent
other and for an other of a different concrete type name; but when other is
an instance of the same type missing a compared field that self has, the
engine raises KeyError instead of returning False. -/
theorem claim_c2_amended (n : Nat) (c : String) (k : Int) (fs : List (String × Value)) (other : Value) :
    eqTAXIIF (n + 1) (.obj c k fs) .none = .ok false ∧
    (className other ≠ c → eqTAXIIF (n + 1) (.obj c k fs) other = .ok false) ∧
    (∀ (nm : String) (sv : Value) (rest : List (String × Value)) (k2 : Int) (os : List (String × Value)),
      lookupField nm os = Option.none →
      eqTAXIIF (n + 1) (.obj c k ((nm, sv) :: rest)) (.obj c k2 os) = .error .keyError) := by
  refine ⟨rfl, ?_, ?_⟩
  · intro hne
    match other with
    | .none => rfl
    | .scalar a => simp [eqTAXIIF, if_neg hne]
    | .obj c2 k2 fs2 => simp [eqTAXIIF, if_neg hne]
    | .vlist l => simp [eqTAXIIF, if_neg hne]
    | .vdict d => simp [eqTAXIIF, if_neg hne]
    | .elem s => simp [eqTAXIIF, if_neg hne]
  · intro nm sv rest k2 os hlk
    simp [eqTAXIIF, className, eqMembersRun, hlk]

theorem claim_c2_amended_witness :
    className (Value.scalar 5) ≠ "T" ∧
    lookupField "_x" ([] : List (String × Value)) = Option.none ∧
    (eqTAXIIF 1 (.obj "T" 0 [("_x", .scalar 1)]) .none = .ok false ∧
      (className (Value.scalar 5) ≠ "T" → eqTAXIIF 1 (.obj "T" 0 [("_x", .scalar 1)]) (.scalar 5) = .ok false) ∧
      (∀ (nm : String) (sv : Value) (rest : List (String × Value)) (k2 : Int) (os : List (String × Value)),
        lookupField nm os = Option.none →
        eqTAXIIF 1 (.obj "T" 0 ((nm, sv) :: rest)) (.obj "T" k2 os) = .error .keyError)) := by
  refine ⟨by decide, rfl, claim_c2_amended 0 "T" 0 [("_x", .scalar 1)] (.scalar 5)⟩

/-- C4: if other is None, or the two concrete class names differ, __eq__
returns False immediately; the member lists of both operands are
universally quantified and never inspected, so no field access happens. -/
theorem claim_c4_none_or_class_mismatch (n : Nat) (c : String) (k : Int) (fs : List (String × Value)) (other : Value) :
    eqTAXIIF (n + 1) (.obj c k fs) .none = .ok false ∧
    (className other ≠ c → eqTAXIIF (n + 1) (.obj c k fs) other = .ok false) := by
  exact ⟨(claim_c2_amended n c k fs other).1, (claim_c2_amended n c k fs other).2.1⟩

theorem claim_c4_witness :
    className (Value.obj "B" 0 [("_y", .scalar 9)]) ≠ "A" ∧
    (eqTAXIIF 1 (.obj "A" 0 [("_x", .scalar 1)]) .none = .ok false ∧
      (className (Value.obj "B" 0 [("_y", .scalar 9)]) ≠ "A" →
        eqTAXIIF 1 (.obj "A" 0 [("_x", .scalar 1)]) (.obj "B" 0 [("_y", .scalar 9)]) = .ok false)) := by
  exact ⟨by decide, claim_c4_none_or_class_mismatch 0 "A" 0 [("_x", .scalar 1)] (.obj "B" 0 [("_y", .scalar 9)])⟩

/-- C5: set_xml_parser followed by get_xml_parser returns exactly the stored
configuration; after set_xml_parser(None), the next get_xml_parser builds,
stores and returns the hardened default (no_network and huge_tree both on),
independent of whatever was stored before, so a previously set custom
configuration different from the default is never returned. -/
theorem claim_c5_parser_registry (c : XMLParserConfig) (st st2 : Option XMLParserConfig) :
    get_xml_parser_fn (set_xml_parser_fn (some c) st) = (c, some c) ∧
    get_xml_parser_fn (set_xml_parser_fn Option.none st2) = (defaultXMLParserConfig, some defaultXMLParserConfig) ∧
    defaultXMLParserConfig.no_network = true ∧
    defaultXMLParserConfig.huge_tree = true ∧
    (c ≠ defaultXMLParserConfig → (get_xml_parser_fn (set_xml_parser_fn Option.none (some c))).1 ≠ c) := by
  refine ⟨rfl, rfl, rfl, rfl, ?_⟩
  intro hne
  simpa [get_xml_parser_fn, set_xml_parser_fn] using fun h => hne h.symm

theorem claim_c5_parser_registry_witness :
    (⟨false, false⟩ : XMLParserConfig) ≠ defaultXMLParserConfig ∧
    (get_xml_parser_fn (set_xml_parser_fn (some ⟨false, false⟩) Option.none) = (⟨false, false⟩, some ⟨false, false⟩) ∧
      get_xml_parser_fn (set_xml_parser_fn Option.none (some defaultXMLParserConfig)) =
        (defaultXMLParserConfig, some defaultXMLParserConfig) ∧
      defaultXMLParserConfig.no_network = true ∧
      defaultXMLParserConfig.huge_tree = true ∧
      ((⟨false, false⟩ : XMLParserConfig) ≠ defaultXMLParserConfig →
        (get_xml_parser_fn (set_xml_parser_fn Option.none (some ⟨false, false⟩))).1 ≠ ⟨false, false⟩)) := by
  exact ⟨by decide, claim_c5_parser_registry ⟨false, false⟩ Option.none (some defaultXMLParserConfig)⟩

/-- C6: parse_datetime_string maps an absent or empty input to an absent
result without failing; a non-empty input is delegated to the external
date/time parser, whose success is wrapped in some and whose ParseError is
propagated unchanged, with no recovery. -/
theorem claim_c6_parse_datetime (E DT : Type) (duParse : String → Except E DT) (s : String) :
    parse_datetime_string duParse Option.none = .ok Option.none ∧
    parse_datetime_string duParse (some "") = .ok Option.none ∧
    (s ≠ "" →
      parse_datetime_string duParse (some s) =
        match duParse s with
        | .ok t => .ok (some t)
        | .error e => .error e) := by
  refine ⟨rfl, rfl, ?_⟩
  intro hne
  simp [parse_datetime_string, if_neg hne]

theorem sortlemma_insertK_perm (p : Int × Value) : ∀ l : List (Int × Value), (insertK p l).Perm (p :: l)
| [] => List.Perm.refl _
| q :: qs => by
  unfold insertK
  by_cases hc : q.1 < p.1
  · rw [if_pos hc]
    exact ((sortlemma_insertK_perm p qs).cons q).trans (List.Perm.swap p q qs)
  · rw [if_neg hc]

theorem sortlemma_isortK_perm : ∀ l : List (Int × Value), (isortK l).Perm l
| [] => List.Perm.refl _
| p :: ps => (sortlemma_insertK_perm p (isortK ps)).trans ((sortlemma_isortK_perm ps).cons p)

theorem sortlemma_insertK_sorted (p : Int × Value) :
    ∀ {l : List (Int × Value)}, l.Sorted (fun a b : Int × Value => a.1 ≤ b.1) →
      (insertK p l).Sorted (fun a b : Int × Value => a.1 ≤ b.1) := by
  intro l
  induction l with
  | nil => intro _; simp [insertK]
  | cons q qs ih =>
    intro hs
    rw [List.sorted_cons] at hs
    unfold insertK
    by_cases hc : q.1 < p.1
    · rw [if_pos hc, List.sorted_cons]
      refine ⟨?_, ih hs.2⟩
      intro b hb
      rcases List.mem_cons.1 (((sortlemma_insertK_perm p qs).mem_iff).1 hb) with hbp | hbq
      · subst hbp
        exact le_of_lt hc
      · exact hs.1 b hbq
    · rw [if_neg hc, List.sorted_cons]
      refine ⟨?_, List.sorted_cons.2 hs⟩
      intro b hb
      rcases List.mem_cons.1 hb with hbq | hbqs
      · subst hbq
        exact le_of_not_lt hc
      · exact le_trans (le_of_not_lt hc) (hs.1 b hbqs)

theorem sortlemma_isortK_sorted : ∀ l : List (Int × Value), (isortK l).Sorted (fun a b : Int × Value => a.1 ≤ b.1)
| [] => List.sorted_nil
| p :: ps => sortlemma_insertK_sorted p (sortlemma_isortK_sorted ps)

theorem keyedList_ok_snd : ∀ {l : List Value} {ks : List (Int × Value)},
    keyedList l = .ok ks → ks.map Prod.snd = l := by
  intro l
  induction l with
  | nil =>
    intro ks h
    simp [keyedList] at h
    subst h
    rfl
  | cons v rest ih =>
    intro ks h
    cases hg : getKeyV v with
    | error e => simp [keyedList, hg] at h
    | ok k =>
      cases hk : keyedList rest with
      | error e => simp [keyedList, hg, hk] at h
      | ok ks2 =>
        simp [keyedList, hg, hk] at h
        subst h
        simp [ih hk]

theorem keyedList_ok_objKey : ∀ {l : List Value} {ks : List (Int × Value)},
    keyedList l = .ok ks → ∀ p ∈ ks, objKey p.2 = p.1 := by
  intro l
  induction l with
  | nil =>
    intro ks h
    simp [keyedList] at h
    subst h
    intro p hp
    cases hp
  | cons v rest ih =>
    intro ks h
    cases hg : getKeyV v with
    | error e => simp [keyedList, hg] at h
    | ok k =>
      cases hk : keyedList rest with
      | error e => simp [keyedList, hg, hk] at h
      | ok ks2 =>
        simp [keyedList, hg, hk] at h
        subst h
        intro p hp
        rcases List.mem_cons.1 hp with hp1 | hp2
        · subst hp1
          cases v with
          | obj c k2 fs =>
            simp [getKeyV] at hg
            simp [objKey, hg]
          | none => simp [getKeyV] at hg
          | scalar a => simp [getKeyV] at hg
          | vlist l0 => simp [getKeyV] at hg
          | vdict d0 => simp [getKeyV] at hg
          | elem s0 => simp [getKeyV] at hg
        · exact ih hk p hp2

theorem keyedList_error_of_nonobj : ∀ {l : List Value},
    (∃ x ∈ l, isTAXIIBase x = false) → keyedList l = .error .attributeError := by
  intro l
  induction l with
  | nil =>
    intro hex
    obtain ⟨x, hx, _⟩ := hex
    cases hx
  | cons v rest ih =>
    intro hex
    by_cases hv : isTAXIIBase v = true
    · have hrest : ∃ x ∈ rest, isTAXIIBase x = false := by
        obtain ⟨x, hx, hxf⟩ := hex
        rcases List.mem_cons.1 hx with hx1 | hx2
        · subst hx1
          rw [hv] at hxf
          cases hxf
        · exact ⟨x, hx2, hxf⟩
      cases v with
      | obj c k fs => simp [keyedList, getKeyV, ih hrest]
      | none => simp [isTAXIIBase] at hv
      | scalar a => simp [isTAXIIBase] at hv
      | vlist l0 => simp [isTAXIIBase] at hv
      | vdict d0 => simp [isTAXIIBase] at hv
      | elem s0 => simp [isTAXIIBase] at hv
    · cases v with
      | obj c k fs => simp [isTAXIIBase] at hv
      | none => simp [keyedList, getKeyV]
      | scalar a => simp [keyedList, getKeyV]
      | vlist l0 => simp [keyedList, getKeyV]
      | vdict d0 => simp [keyedList, getKeyV]
      | elem s0 => simp [keyedList, getKeyV]

theorem keyedList_ok_of_all : ∀ {l : List Value},
    (∀ x ∈ l, isTAXIIBase x = true) → ∃ ks, keyedList l = .ok ks := by
  intro l
  induction l with
  | nil => intro _; exact ⟨[], rfl⟩
  | cons v rest ih =>
    intro hall
    have hv := hall v (List.mem_cons_self v rest)
    obtain ⟨ks, hks⟩ := ih (fun x hx => hall x (List.mem_cons_of_mem v hx))
    cases v with
    | obj c k fs => exact ⟨(k, .obj c k fs) :: ks, by simp [keyedList, getKeyV, hks]⟩
    | none => simp [isTAXIIBase] at hv
    | scalar a => simp [isTAXIIBase] at hv
    | vlist l0 => simp [isTAXIIBase] at hv
    | vdict d0 => simp [isTAXIIBase] at hv
    | elem s0 => simp [isTAXIIBase] at hv

theorem sortObjsByKey_ok_spec {l s : List Value} (h : sortObjsByKey l = .ok s) :
    s.Perm l ∧ s.Sorted (fun a b : Value => objKey a ≤ objKey b) := by
  cases hk : keyedList l with
  | error e => simp [sortObjsByKey, hk] at h
  | ok ks =>
    simp [sortObjsByKey, hk] at h
    subst h
    constructor
    · have hp : (isortK ks).map Prod.snd |>.Perm (ks.map Prod.snd) :=
        (sortlemma_isortK_perm ks).map Prod.snd
      rw [keyedList_ok_snd hk] at hp
      exact hp
    · have hs := sortlemma_isortK_sorted ks
      rw [List.Sorted, List.pairwise_map]
      refine hs.imp_of_mem ?_
      intro a b ha hb hab
      have hka := keyedList_ok_objKey hk a (((sortlemma_isortK_perm ks).mem_iff).1 ha)
      have hkb := keyedList_ok_objKey hk b (((sortlemma_isortK_perm ks).mem_iff).1 hb)
      rw [hka, hkb]
      exact hab

theorem sortObjsByKey_ok_of_all {l : List Value} (hall : ∀ x ∈ l, isTAXIIBase x = true) :
    ∃ s, sortObjsByKey l = .ok s := by
  obtain ⟨ks, hks⟩ := keyedList_ok_of_all hall
  exact ⟨(isortK ks).map Prod.snd, by simp [sortObjsByKey, hks]⟩

theorem sortObjsByKey_error_of_nonobj {l : List Value} (hex : ∃ x ∈ l, isTAXIIBase x = false) :
    sortObjsByKey l = .error .attributeError := by
  simp [sortObjsByKey, keyedList_error_of_nonobj hex]

theorem eqPairsRun_cons (f : Value → Value → Except PyErr Bool) (a b : Value)
    (rest : List (Value × Value)) (acc : Bool) :
    eqPairsRun f ((a, b) :: rest) acc =
      match f a b with
      | .error e => .error e
      | .ok e => eqPairsRun f rest e := rfl

theorem eqPairsRun_eq_last (f : Value → Value → Except PyErr Bool) :
    ∀ (ps : List (Value × Value)) (acc : Bool) (hne : ps ≠ []),
      (∀ p ∈ ps, ∃ r : Bool, f p.1 p.2 = .ok r) →
      eqPairsRun f ps acc = f (ps.getLast hne).1 (ps.getLast hne).2 := by
  intro ps
  induction ps with
  | nil =>
    intro acc hne _
    exact absurd rfl hne
  | cons p rest ih =>
    intro acc hne hok
    obtain ⟨a, b⟩ := p
    obtain ⟨r, hr⟩ := hok (a, b) (List.mem_cons_self (a, b) rest)
    cases rest with
    | nil =>
      rw [eqPairsRun_cons, hr]
      exact hr.symm
    | cons q rest2 =>
      have ihx := ih r (List.cons_ne_nil q rest2) (fun x hx => hok x (List.mem_cons_of_mem (a, b) hx))
      have hgl : ((a, b) :: q :: rest2).getLast hne = (q :: rest2).getLast (List.cons_ne_nil q rest2) := rfl
      rw [eqPairsRun_cons, hr, hgl]
      exact ihx

theorem eqPairsRun_all_true (f : Value → Value → Except PyErr Bool) :
    ∀ ps : List (Value × Value), (∀ p ∈ ps, f p.1 p.2 = .ok true) → eqPairsRun f ps true = .ok true
| [], _ => rfl
| p :: rest, hok => by
  have hr := hok p (List.mem_cons_self p rest)
  have ih := eqPairsRun_all_true f rest (fun x hx => hok x (List.mem_cons_of_mem p hx))
  simp [eqPairsRun, hr, ih]

theorem hashableScalar_not_taxii {x : Value} (hx : hashableScalar x = true) : isTAXIIBase x = false := by
  cases x <;> simp_all [hashableScalar, isTAXIIBase]

theorem hashableScalar_not_unhashable {x : Value} (hx : hashableScalar x = true) : isUnhashable x = false := by
  cases x <;> simp_all [hashableScalar, isUnhashable]

/-- C3: on a member holding a nonempty list of TAXIIBase objects compared
against an equal-length list, the engine sorts both sides by sort_key (the
sorted lists are permutations of the originals, ascending in sort_key) and
then, provided every aligned recursive comparison returns a boolean, the
member comparison equals the comparison of the last aligned pair alone:
the results of all earlier aligned pairs are overwritten and ignored. -/
theorem claim_c3_last_pair_decides (n : Nat) (l1 l2 s1 s2 : List Value)
    (h1 : sortObjsByKey l1 = .ok s1) (h2 : sortObjsByKey l2 = .ok s2)
    (hlen : l1.length = l2.length) (hne1 : l1 ≠ [])
    (hall1 : ∀ x ∈ l1, isTAXIIBase x = true)
    (hzne : s1.zip s2 ≠ [])
    (hok : ∀ p ∈ s1.zip s2, ∃ r : Bool, eqTAXIIF n p.1 p.2 = .ok r) :
    s1.Perm l1 ∧ s2.Perm l2 ∧
    s1.Sorted (fun a b : Value => objKey a ≤ objKey b) ∧
    s2.Sorted (fun a b : Value => objKey a ≤ objKey b) ∧
    fieldEqF n (.vlist l1) (.vlist l2) =
      eqTAXIIF n ((s1.zip s2).getLast hzne).1 ((s1.zip s2).getLast hzne).2 := by
  obtain ⟨hp1, hsort1⟩ := sortObjsByKey_ok_spec h1
  obtain ⟨hp2, hsort2⟩ := sortObjsByKey_ok_spec h2
  refine ⟨hp1, hp2, hsort1, hsort2, ?_⟩
  cases l1 with
  | nil => exact absurd rfl hne1
  | cons h t =>
    have hh := hall1 h (List.mem_cons_self h t)
    have hlist : fieldEqF n (.vlist (h :: t)) (.vlist l2) =
        eqPairsRun (fun a b => eqTAXIIF n a b) (s1.zip s2) true := by
      simp [fieldEqF, eqValueRun, eqListPy, hlen, hh, h1, h2]
    rw [hlist]
    exact eqPairsRun_eq_last (fun a b => eqTAXIIF n a b) (s1.zip s2) true hzne hok

theorem claim_c3_last_pair_decides_witness :
    (sortObjsByKey [Value.obj "I" 2 [("_v", Value.scalar 7)], Value.obj "I" 1 [("_v", Value.scalar 1)]] =
      .ok [Value.obj "I" 1 [("_v", Value.scalar 1)], Value.obj "I" 2 [("_v", Value.scalar 7)]]) ∧
    (sortObjsByKey [Value.obj "I" 2 [("_v", Value.scalar 7)], Value.obj "I" 1 [("_v", Value.scalar 999)]] =
      .ok [Value.obj "I" 1 [("_v", Value.scalar 999)], Value.obj "I" 2 [("_v", Value.scalar 7)]]) ∧
    (∀ p ∈ [(Value.obj "I" 1 [("_v", Value.scalar 1)], Value.obj "I" 1 [("_v", Value.scalar 999)]),
            (Value.obj "I" 2 [("_v", Value.scalar 7)], Value.obj "I" 2 [("_v", Value.scalar 7)])],
      ∃ r : Bool, eqTAXIIF 1 p.1 p.2 = .ok r) ∧
    (fieldEqF 1 (.vlist [Value.obj "I" 2 [("_v", Value.scalar 7)], Value.obj "I" 1 [("_v", Value.scalar 1)]])
        (.vlist [Value.obj "I" 2 [("_v", Value.scalar 7)], Value.obj "I" 1 [("_v", Value.scalar 999)]]) =
      eqTAXIIF 1 (Value.obj "I" 2 [("_v", Value.scalar 7)]) (Value.obj "I" 2 [("_v", Value.scalar 7)])) ∧
    eqTAXIIF 1 (Value.obj "I" 1 [("_v", Value.scalar 1)]) (Value.obj "I" 1 [("_v", Value.scalar 999)]) = .ok false ∧
    fieldEqF 1 (.vlist [Value.obj "I" 2 [("_v", Value.scalar 7)], Value.obj "I" 1 [("_v", Value.scalar 1)]])
        (.vlist [Value.obj "I" 2 [("_v", Value.scalar 7)], Value.obj "I" 1 [("_v", Value.scalar 999)]]) = .ok true := by
  refine ⟨rfl, rfl, by decide, ?_, by decide, by decide⟩
  exact (claim_c3_last_pair_decides 1
    [Value.obj "I" 2 [("_v", Value.scalar 7)], Value.obj "I" 1 [("_v", Value.scalar 1)]]
    [Value.obj "I" 2 [("_v", Value.scalar 7)], Value.obj "I" 1 [("_v", Value.scalar 999)]]
    [Value.obj "I" 1 [("_v", Value.scalar 1)], Value.obj "I" 2 [("_v", Value.scalar 7)]]
    [Value.obj "I" 1 [("_v", Value.scalar 999)], Value.obj "I" 2 [("_v", Value.scalar 7)]]
    rfl rfl rfl (List.cons_ne_nil _ _) (by decide) (List.cons_ne_nil _ _) (by decide)).2.2.2.2

/-- C8: on a member holding a nonempty list of value-hashed scalar elements
compared against an equal-length list of such elements, the engine compares
the two lists as unordered collections: the result is True exactly when the
two lists contain the same elements under Python ==, irrespective of order
and of duplicate counts. -/
theorem claim_c8_scalar_set_membership (n : Nat) (l1 l2 : List Value)
    (hne : l1 ≠ []) (hlen : l1.length = l2.length)
    (hh1 : ∀ x ∈ l1, hashableScalar x = true) (hh2 : ∀ x ∈ l2, hashableScalar x = true) :
    ∃ b : Bool, fieldEqF n (.vlist l1) (.vlist l2) = .ok b ∧
      (b = true ↔
        (∀ x ∈ l1, ∃ y ∈ l2, pyPlainEq x y = true) ∧ (∀ y ∈ l2, ∃ x ∈ l1, pyPlainEq y x = true)) := by
  cases l1 with
  | nil => exact absurd rfl hne
  | cons h t =>
    have hh := hashableScalar_not_taxii (hh1 h (List.mem_cons_self h t))
    have hany : ((h :: t) ++ l2).any isUnhashable = false := by
      rw [Bool.eq_false_iff]
      intro hc
      obtain ⟨x, hx, hxu⟩ := List.any_eq_true.1 hc
      rcases List.mem_append.1 hx with hx1 | hx2
      · rw [hashableScalar_not_unhashable (hh1 x hx1)] at hxu
        cases hxu
      · rw [hashableScalar_not_unhashable (hh2 x hx2)] at hxu
        cases hxu
    have hall : ((h :: t) ++ l2).all hashableScalar = true := by
      rw [List.all_eq_true]
      intro x hx
      rcases List.mem_append.1 hx with hx1 | hx2
      · exact hh1 x hx1
      · exact hh2 x hx2
    refine ⟨((h :: t).all fun x => l2.any (pyPlainEq x)) && (l2.all fun x => (h :: t).any (pyPlainEq x)), ?_, ?_⟩
    · simp only [fieldEqF, eqValueRun, eqListPy, setEqPy, hlen, hh, hany, hall]
      simp [hlen]
    · simp [List.all_eq_true, List.any_eq_true]

theorem claim_c8_scalar_set_membership_witness :
    ([Value.scalar 1, Value.scalar 1, Value.scalar 2] : List Value) ≠ [] ∧
    ([Value.scalar 1, Value.scalar 1, Value.scalar 2] : List Value).length =
      ([Value.scalar 1, Value.scalar 2, Value.scalar 2] : List Value).length ∧
    (∃ b : Bool,
      fieldEqF 1 (.vlist [Value.scalar 1, Value.scalar 1, Value.scalar 2])
          (.vlist [Value.scalar 1, Value.scalar 2, Value.scalar 2]) = .ok b ∧
      (b = true ↔
        (∀ x ∈ [Value.scalar 1, Value.scalar 1, Value.scalar 2],
          ∃ y ∈ [Value.scalar 1, Value.scalar 2, Value.scalar 2], pyPlainEq x y = true) ∧
        (∀ y ∈ [Value.scalar 1, Value.scalar 2, Value.scalar 2],
          ∃ x ∈ [Value.scalar 1, Value.scalar 1, Value.scalar 2], pyPlainEq y x = true))) ∧
    fieldEqF 1 (.vlist [Value.scalar 1, Value.scalar 1, Value.scalar 2])
        (.vlist [Value.scalar 1, Value.scalar 2, Value.scalar 2]) = .ok true := by
  refine ⟨List.cons_ne_nil _ _, rfl, ?_, by decide⟩
  exact claim_c8_scalar_set_membership 1
    [Value.scalar 1, Value.scalar 1, Value.scalar 2]
    [Value.scalar 1, Value.scalar 2, Value.scalar 2]
    (List.cons_ne_nil _ _) rfl (by decide) (by decide)

/-- C10: for equal-length nonempty list members, the comparison strategy is
decided by the first element of the first instance's list alone: a
non-TAXIIBase head always routes to the set comparison, a TAXIIBase head
always routes to the sort-by-sort_key pairwise path, which touches every
element of both lists (so a non-TAXIIBase element anywhere else in either
list makes that path raise AttributeError rather than change strategy),
and when all elements are TAXIIBase both lists are sorted and the aligned
pair loop runs. -/
theorem claim_c10_first_element_dispatch (n : Nat) (h : Value) (t l2 : List Value)
    (hlen : (h :: t).length = l2.length) :
    (isTAXIIBase h = false → fieldEqF n (.vlist (h :: t)) (.vlist l2) = setEqPy (h :: t) l2) ∧
    (isTAXIIBase h = true →
      ((∃ x ∈ h :: t, isTAXIIBase x = false) ∨ (∃ x ∈ l2, isTAXIIBase x = false)) →
      fieldEqF n (.vlist (h :: t)) (.vlist l2) = .error .attributeError) ∧
    (isTAXIIBase h = true → (∀ x ∈ h :: t, isTAXIIBase x = true) → (∀ x ∈ l2, isTAXIIBase x = true) →
      ∃ s1 s2, sortObjsByKey (h :: t) = .ok s1 ∧ sortObjsByKey l2 = .ok s2 ∧
        fieldEqF n (.vlist (h :: t)) (.vlist l2) =
          eqPairsRun (fun a b => eqTAXIIF n a b) (s1.zip s2) true) := by
  refine ⟨?_, ?_, ?_⟩
  · intro hh
    simp [fieldEqF, eqValueRun, eqListPy, hlen, hh]
  · intro hh hex
    by_cases hex1 : ∃ x ∈ h :: t, isTAXIIBase x = false
    · have hs1 := sortObjsByKey_error_of_nonobj hex1
      simp [fieldEqF, eqValueRun, eqListPy, hlen, hh, hs1]
    · have hall1 : ∀ x ∈ h :: t, isTAXIIBase x = true := by
        intro x hx
        by_contra hc
        exact hex1 ⟨x, hx, by simpa using hc⟩
      have hex2 : ∃ x ∈ l2, isTAXIIBase x = false := hex.resolve_left hex1
      obtain ⟨s1, hs1⟩ := sortObjsByKey_ok_of_all hall1
      have hs2 := sortObjsByKey_error_of_nonobj hex2
      simp [fieldEqF, eqValueRun, eqListPy, hlen, hh, hs1, hs2]
  · intro hh hall1 hall2
    obtain ⟨s1, hs1⟩ := sortObjsByKey_ok_of_all hall1
    obtain ⟨s2, hs2⟩ := sortObjsByKey_ok_of_all hall2
    refine ⟨s1, s2, hs1, hs2, ?_⟩
    simp [fieldEqF, eqValueRun, eqListPy, hlen, hh, hs1, hs2]

theorem claim_c10_first_element_dispatch_witness :
    ([Value.scalar 1, Value.obj "I" 3 []] : List Value).length =
      ([Value.scalar 1, Value.scalar 2] : List Value).length ∧
    isTAXIIBase (Value.scalar 1) = false ∧
    (isTAXIIBase (Value.scalar 1) = false →
      fieldEqF 1 (.vlist [Value.scalar 1, Value.obj "I" 3 []]) (.vlist [Value.scalar 1, Value.scalar 2]) =
        setEqPy [Value.scalar 1, Value.obj "I" 3 []] [Value.scalar 1, Value.scalar 2]) := by
  refine ⟨rfl, by decide, ?_⟩
  exact (claim_c10_first_element_dispatch 1 (Value.scalar 1) [Value.obj "I" 3 []]
    [Value.scalar 1, Value.scalar 2] rfl).1

/-- C9: for a list-valued member, unequal lengths make the member compare
False at once (the elements are never inspected, both lists being
universally quantified), two empty lists compare True, and at the whole
object level a length mismatch on a list field makes the two objects
compare unequal. -/
theorem claim_c9_length_rules (n : Nat) (l1 l2 : List Value) :
    (l1.length ≠ l2.length → fieldEqF n (.vlist l1) (.vlist l2) = .ok false) ∧
    fieldEqF n (.vlist ([] : List Value)) (.vlist ([] : List Value)) = .ok true ∧
    (∀ (c nm : String) (k k2 : Int),
      l1.length ≠ l2.length →
      eqTAXIIF (n + 1) (.obj c k [(nm, .vlist l1)]) (.obj c k2 [(nm, .vlist l2)]) = .ok false) := by
  refine ⟨?_, rfl, ?_⟩
  · intro hne
    simp [fieldEqF, eqValueRun, eqListPy, hne]
  · intro c nm k k2 hne
    simp [eqTAXIIF, className, eqMembersRun, lookupField, fieldEqF, eqValueRun, eqListPy, hne]

theorem claim_c9_length_rules_witness :
    ([Value.scalar 1, Value.scalar 2].length ≠ [Value.scalar 1].length) ∧
    ((([Value.scalar 1, Value.scalar 2] : List Value).length ≠ ([Value.scalar 1] : List Value).length →
        fieldEqF 1 (.vlist [Value.scalar 1, Value.scalar 2]) (.vlist [Value.scalar 1]) = .ok false) ∧
      fieldEqF 1 (.vlist ([] : List Value)) (.vlist ([] : List Value)) = .ok true ∧
      (∀ (c nm : String) (k k2 : Int),
        ([Value.scalar 1, Value.scalar 2] : List Value).length ≠ ([Value.scalar 1] : List Value).length →
        eqTAXIIF 2 (.obj c k [(nm, .vlist [Value.scalar 1, Value.scalar 2])])
            (.obj c k2 [(nm, .vlist [Value.scalar 1])]) = .ok false)) := by
  exact ⟨by decide, claim_c9_length_rules 1 [Value.scalar 1, Value.scalar 2] [Value.scalar 1]⟩

theorem claim_c6_parse_datetime_witness :
    ("2014-01-01" : String) ≠ "" ∧
    (parse_datetime_string (fun s => if s = "bad" then Except.error 0 else Except.ok s.length) Option.none =
        .ok Option.none ∧
      parse_datetime_string (fun s => if s = "bad" then Except.error 0 else Except.ok s.length) (some "") =
        .ok Option.none ∧
      (("2014-01-01" : String) ≠ "" →
        parse_datetime_string (fun s => if s = "bad" then Except.error 0 else Except.ok s.length)
            (some "2014-01-01") =
          match (fun s : String => if s = "bad" then Except.error 0 else Except.ok s.length) "2014-01-01" with
          | .ok t => .ok (some t)
          | .error e => .error e)) := by
  exact ⟨by decide, claim_c6_parse_datetime Nat Nat (fun s => if s = "bad" then Except.error 0 else Except.ok s.length) "2014-01-01"⟩

theorem pyPlainEq_refl_hashable {x : Value} (hx : hashableScalar x = true) : pyPlainEq x x = true := by
  cases x <;> simp_all [hashableScalar, pyPlainEq]

theorem lookupField_of_nodup : ∀ {fs : List (String × Value)} {nm : String} {sv : Value},
    (fs.map Prod.fst).Nodup → (nm, sv) ∈ fs → lookupField nm fs = some sv := by
  intro fs
  induction fs with
  | nil =>
    intro nm sv _ hmem
    cases hmem
  | cons q rest ih =>
    intro nm sv hnd hmem
    obtain ⟨qn, qv⟩ := q
    rw [List.map_cons, List.nodup_cons] at hnd
    rcases List.mem_cons.1 hmem with h1 | h2
    · cases h1
      simp [lookupField]
    · have hne : qn ≠ nm := by
        intro he
        subst he
        exact hnd.1 (List.mem_map.2 ⟨(qn, sv), h2, rfl⟩)
      simp [lookupField, hne, ih hnd.2 h2]

theorem lookupDict_isSome_of_mem : ∀ {d : List (String × Int)} {k : String} {v : Int},
    (k, v) ∈ d → ∃ w, lookupDict k d = some w := by
  intro d
  induction d with
  | nil =>
    intro k v hmem
    cases hmem
  | cons q rest ih =>
    intro k v hmem
    obtain ⟨qn, qv⟩ := q
    by_cases hq : qn = k
    · exact ⟨qv, by simp [lookupDict, hq]⟩
    · rcases List.mem_cons.1 hmem with h1 | h2
      · cases h1
        exact absurd rfl hq
      · obtain ⟨w, hw⟩ := ih h2
        exact ⟨w, by simp [lookupDict, hq, hw]⟩

theorem dictLoopPy_ok (dfull : List (String × Int)) :
    ∀ d : List (String × Int), (∀ p ∈ d, ∃ w, lookupDict p.1 dfull = some w) →
      dictLoopPy dfull d = .ok ()
| [], _ => rfl
| (k, v) :: rest, hlk => by
  obtain ⟨w, hw⟩ := hlk (k, v) (List.mem_cons_self (k, v) rest)
  simp [dictLoopPy, hw,
    dictLoopPy_ok dfull rest (fun p hp => hlk p (List.mem_cons_of_mem (k, v) hp))]

theorem setEqPy_refl {l : List Value} (hall : ∀ x ∈ l, hashableScalar x = true) :
    setEqPy l l = .ok true := by
  have hmemapp : ∀ x ∈ l ++ l, hashableScalar x = true := by
    intro x hx
    rcases List.mem_append.1 hx with h | h
    · exact hall x h
    · exact hall x h
  have hany : (l ++ l).any isUnhashable = false := by
    rw [Bool.eq_false_iff]
    intro hc
    obtain ⟨x, hx, hxu⟩ := List.any_eq_true.1 hc
    rw [hashableScalar_not_unhashable (hmemapp x hx)] at hxu
    cases hxu
  have hallb : (l ++ l).all hashableScalar = true := List.all_eq_true.2 hmemapp
  have hmem : ∀ x ∈ l, l.any (pyPlainEq x) = true := fun x hx =>
    List.any_eq_true.2 ⟨x, hx, pyPlainEq_refl_hashable (hall x hx)⟩
  simp [setEqPy, hany, hallb, List.all_eq_true.2 hmem]

theorem list_zip_self : ∀ l : List Value, l.zip l = l.map fun a => (a, a)
| [] => rfl
| x :: xs => by
  rw [show (x :: xs).zip (x :: xs) = (x, x) :: xs.zip xs from rfl, list_zip_self xs]
  rfl

theorem eqMembersRun_refl (f : Value → Value → Except PyErr Bool) (c : String) (k : Int)
    (os : List (String × Value)) :
    ∀ fs : List (String × Value), (∀ p ∈ fs, lookupField p.1 os = some p.2) →
      (∀ p ∈ fs, eqValueRun f p.2 p.2 = .ok true) →
      eqMembersRun f (.obj c k os) fs = .ok true
| [], _, _ => rfl
| (nm, sv) :: rest, hlk, hv => by
  have h1 := hlk (nm, sv) (List.mem_cons_self (nm, sv) rest)
  have h2 := hv (nm, sv) (List.mem_cons_self (nm, sv) rest)
  have ih := eqMembersRun_refl f c k os rest
    (fun p hp => hlk p (List.mem_cons_of_mem (nm, sv) hp))
    (fun p hp => hv p (List.mem_cons_of_mem (nm, sv) hp))
  simp [eqMembersRun, h1, h2, ih]

theorem eqValueRun_refl {v : Value} {d : Nat} (hw : WFD v d) :
    ∀ n : Nat, d ≤ n → eqValueRun (fun a b => eqTAXIIF n a b) v v = .ok true := by
  induction hw with
  | wnone d =>
    intro n _
    rfl
  | wscalar a d =>
    intro n _
    simp [eqValueRun, pyPlainEq]
  | welem s d =>
    intro n _
    simp [eqValueRun]
  | wdict entries d hnd =>
    intro n _
    show dictEqPy entries entries = .ok true
    have hloop := dictLoopPy_ok entries entries (fun p hp => lookupDict_isSome_of_mem hp)
    simp [dictEqPy, hloop]
  | wobjlist l d hall hwf ih =>
    intro n hn
    cases l with
    | nil => rfl
    | cons h t =>
      have hh := hall h (List.mem_cons_self h t)
      obtain ⟨s, hs⟩ := sortObjsByKey_ok_of_all hall
      have hperm := (sortObjsByKey_ok_spec hs).1
      have hlist : eqValueRun (fun a b => eqTAXIIF n a b) (.vlist (h :: t)) (.vlist (h :: t)) =
          eqPairsRun (fun a b => eqTAXIIF n a b) (s.zip s) true := by
        simp [eqValueRun, eqListPy, hh, hs]
      rw [hlist, list_zip_self s]
      apply eqPairsRun_all_true
      intro p hp
      obtain ⟨a, ha, rfl⟩ := List.mem_map.1 hp
      have hmem : a ∈ h :: t := hperm.mem_iff.1 ha
      have hobja := hall a hmem
      have hih := ih a hmem n hn
      cases a with
      | obj c2 k2 fs2 => exact hih
      | none => simp [isTAXIIBase] at hobja
      | scalar b => simp [isTAXIIBase] at hobja
      | vlist l0 => simp [isTAXIIBase] at hobja
      | vdict d0 => simp [isTAXIIBase] at hobja
      | elem s0 => simp [isTAXIIBase] at hobja
  | wscalarlist l d hall =>
    intro n _
    cases l with
    | nil => rfl
    | cons h t =>
      have hh := hashableScalar_not_taxii (hall h (List.mem_cons_self h t))
      simp [eqValueRun, eqListPy, hh, setEqPy_refl hall]
  | wobj c k fs d hnd hwf ih =>
    intro n hn
    cases n with
    | zero => omega
    | succ m =>
      have hm : d ≤ m := Nat.succ_le_succ_iff.1 hn
      show eqTAXIIF (m + 1) (.obj c k fs) (.obj c k fs) = .ok true
      have hstep : eqTAXIIF (m + 1) (.obj c k fs) (.obj c k fs) =
          eqMembersRun (fun a b => eqTAXIIF m a b) (.obj c k fs) fs := by
        simp [eqTAXIIF, className]
      rw [hstep]
      apply eqMembersRun_refl
      · intro p hp
        exact lookupField_of_nodup hnd hp
      · intro p hp
        exact ih p hp m hm

/-- C7: the equality engine is reflexive on every well-formed TAXIIBase
instance: with fuel covering the object-nesting depth, comparing an
instance with itself returns True through every branch (nested objects,
key-sorted object lists, scalar lists as sets, dict fields, elements,
scalars and None). -/
theorem claim_c7_eq_reflexive (c : String) (k : Int) (fs : List (String × Value)) (d n : Nat)
    (hw : WFD (.obj c k fs) d) (hn : d ≤ n) :
    eqTAXIIF n (.obj c k fs) (.obj c k fs) = .ok true :=
  eqValueRun_refl hw n hn

theorem claim_c7_eq_reflexive_witness :
    WFD (.obj "A" 1 [("_x", .scalar 5), ("_d", .vdict [("k", 1)]),
      ("_l", .vlist [.scalar 2, .scalar 2])]) 1 ∧
    1 ≤ 3 ∧
    eqTAXIIF 3 (.obj "A" 1 [("_x", .scalar 5), ("_d", .vdict [("k", 1)]),
        ("_l", .vlist [.scalar 2, .scalar 2])])
      (.obj "A" 1 [("_x", .scalar 5), ("_d", .vdict [("k", 1)]),
        ("_l", .vlist [.scalar 2, .scalar 2])]) = .ok true := by
  have hw : WFD (.obj "A" 1 [("_x", .scalar 5), ("_d", .vdict [("k", 1)]),
      ("_l", .vlist [.scalar 2, .scalar 2])]) 1 := by
    refine WFD.wobj "A" 1 _ 0 (by decide) ?_
    intro p hp
    cases hp with
    | head => exact WFD.wscalar 5 0
    | tail _ hp2 =>
      cases hp2 with
      | head => exact WFD.wdict [("k", 1)] 0 (by decide)
      | tail _ hp3 =>
        cases hp3 with
        | head => exact WFD.wscalarlist [.scalar 2, .scalar 2] 0 (by decide)
        | tail _ hp4 => cases hp4
  exact ⟨hw, by decide,
    claim_c7_eq_reflexive "A" 1 [("_x", .scalar 5), ("_d", .vdict [("k", 1)]),
      ("_l", .vlist [.scalar 2, .scalar 2])] 1 3 hw (by decide)⟩

end LibTaxii
